import Mathlib

/-!
Shallow embedding of the peer-aware RPC client of this repository (package
rpc: `Call`, `CallMulti`, `call`, `sendRequestAndDecodeResponse`,
`peerFeedback`, the call options and their defaults), together with the
parts of its environment the client consumes: the peer manager ranking
(`GetBestPeers`), the peer filter, the transport stream with its deadlines,
the message codec, the retry helper (constant backoff with a retry bound and
context awareness, as used through `backoff.WithMaxRetries` /
`backoff.WithContext` / `backoff.Retry`), and caller cancellation.

The environment is an oracle (`Env`): it fixes the ranked peer list returned
at each ranking query, which peers the configured filter accepts, the
behavior (duration and transport outcome) of each successive transport
attempt, the codec decode function, and the instant at which the caller
context becomes done.  Executions are deterministic given an oracle, and
time. Durations are modeled in milliseconds, so `RequestWriteDeadline`
is 5000 and `DefaultCallRetryInterval` is 1000.
-/

abbrev PeerID := Nat

abbrev Bytes := List Nat

/-- The error descriptor carried by a response envelope: module, code, message. -/
structure ErrorDesc where
  module : String
  code : Nat
  message : String
deriving DecidableEq

/-- Request envelope: method name plus the opaque serialized body. -/
structure Request where
  method : String
  body : Bytes
deriving DecidableEq

/-- Response envelope: an opaque Ok payload, or an error descriptor. -/
structure Response where
  ok : Bytes
  error : Option ErrorDesc
deriving DecidableEq

/-- The errors an attempt or a whole call can produce.  The first three are the
transport failures of `sendRequestAndDecodeResponse` (failed to open stream /
send request / read response); `fromCode` is the application error rebuilt by
`errors.FromCode` from the error descriptor of the envelope; `decodeFailed` is
a failed `cbor.Unmarshal` of the Ok payload; `cancelled` is `ctx.Err()`;
`callFailedAllPeers` is the exhaustion error of `Call` (the constant
`fmt.Errorf` message, wrapping nothing). -/
inductive CallError where
  | openStreamFailed
  | sendFailed
  | readFailed
  | fromCode (module : String) (code : Nat) (message : String)
  | decodeFailed
  | cancelled
  | callFailedAllPeers
deriving DecidableEq

/-- Whether the error is one of the transport failures. -/
def CallError.isTransport : CallError → Bool
  | .openStreamFailed => true
  | .sendFailed => true
  | .readFailed => true
  | _ => false

/-- Whether the error is an application error built by `errors.FromCode`. -/
def CallError.isFromCode : CallError → Bool
  | .fromCode _ _ _ => true
  | _ => false

/-- A recording operation committed into the peer manager. -/
inductive Ev where
  | recordSuccess (peer : PeerID) (latency : Nat)
  | recordFailure (peer : PeerID) (latency : Nat)
  | recordBadPeer (peer : PeerID)
deriving DecidableEq

/-- `peerFeedback`: the deferred feedback handle, bound to one (peer, measured
latency) pair and holding a reference to the peer manager. -/
structure PeerFeedbackH where
  peerID : PeerID
  latency : Nat
deriving DecidableEq

/-- `peerFeedback.RecordSuccess`: commits a success for the bound peer with the
bound latency. -/
def PeerFeedbackH.recordSuccess (pf : PeerFeedbackH) : Ev :=
  .recordSuccess pf.peerID pf.latency

/-- `peerFeedback.RecordFailure`: commits a failure for the bound peer with the
bound latency. -/
def PeerFeedbackH.recordFailure (pf : PeerFeedbackH) : Ev :=
  .recordFailure pf.peerID pf.latency

/-- `peerFeedback.RecordBadPeer`: flags the bound peer as bad. -/
def PeerFeedbackH.recordBadPeer (pf : PeerFeedbackH) : Ev :=
  .recordBadPeer pf.peerID

/-- `RequestWriteDeadline = 5 * time.Second`, in milliseconds. -/
def RequestWriteDeadline : Nat := 5000

/-- `DefaultCallRetryInterval = 1 * time.Second`, in milliseconds. -/
def DefaultCallRetryInterval : Nat := 1000

/-- The operations one transport attempt performs on its stream.  A
`setWriteDeadline none` models clearing the deadline (`time.Time\x7b\x7d`); a
`setWriteDeadline (some d)` or `setReadDeadline d` models an absolute deadline
`d` from now. -/
inductive StreamAction where
  | openStream (peer : PeerID)
  | setWriteDeadline (d : Option Nat)
  | writeFrame (request : Request)
  | setReadDeadline (d : Nat)
  | readFrame
  | closeStream
deriving DecidableEq

/-- The transport outcome of one attempt: the stream open fails, the frame
write fails, the frame read fails (timeouts included), or a raw response
envelope is read. -/
inductive StreamOutcome where
  | openFail
  | writeFail
  | readFail
  | respond (rsp : Response)
deriving DecidableEq

/-- Behavior of one transport attempt: its elapsed wall-clock duration and its
transport outcome. -/
structure AttemptBehavior where
  duration : Nat
  outcome : StreamOutcome
deriving DecidableEq

/-- The oracle fixing everything outside the client: the ranking returned by
the k-th `GetBestPeers` query, the configured peer filter (constantly true
when no filter is set), the behavior of the k-th transport attempt performed,
the codec decode of an Ok payload into the response container (`none` models a
decode error), the serialization of a body, the instant the caller context
becomes done (`none`: never), and, for `CallMulti`, the start instant of the
k-th submitted task and whether cancellation is observed at the k-th result
gathering step. -/
structure Env where
  bestPeers : Nat → List PeerID
  accept : PeerID → Bool
  attempt : Nat → AttemptBehavior
  decode : Bytes → Option Bytes
  marshal : Bytes → Bytes
  cancelAt : Option Nat
  taskStart : Nat → Nat
  gatherCancel : Nat → Bool

/-- Whether the caller context is done at instant `t`. -/
def Env.isDone (env : Env) (t : Nat) : Bool :=
  match env.cancelAt with
  | none => false
  | some c => decide (c ≤ t)

/-- The same oracle with the caller context never done. -/
def noCancel (env : Env) : Env := { env with cancelAt := none }

/-- Result of `sendRequestAndDecodeResponse`: the sequence of stream
operations performed, the error if any, and the value decoded into the
response container (`none` when nothing was decoded into it). -/
structure SendResult where
  trace : List StreamAction
  err : Option CallError
  container : Option Bytes
deriving DecidableEq

/-- `client.sendRequestAndDecodeResponse`: open a stream to the peer; on
success, close it on every exit path (the deferred close); set the write
deadline to `RequestWriteDeadline`, write the request frame, clear the write
deadline; set the read deadline to the caller-supplied `maxPeerResponseTime`,
read the response frame, clear the write deadline again; then either rebuild
the application error from the error descriptor of the envelope, or decode
the Ok payload into the response container. -/
def sendRequestAndDecodeResponse (env : Env) (peer : PeerID) (request : Request)
    (maxPeerResponseTime : Nat) (b : AttemptBehavior) : SendResult :=
  match b.outcome with
  | .openFail => ⟨[.openStream peer], some .openStreamFailed, none⟩
  | .writeFail =>
      ⟨[.openStream peer, .setWriteDeadline (some RequestWriteDeadline),
         .writeFrame request, .closeStream], some .sendFailed, none⟩
  | .readFail =>
      ⟨[.openStream peer, .setWriteDeadline (some RequestWriteDeadline),
         .writeFrame request, .setWriteDeadline none,
         .setReadDeadline maxPeerResponseTime, .readFrame, .closeStream],
        some .readFailed, none⟩
  | .respond rsp =>
      let pre : List StreamAction :=
        [.openStream peer, .setWriteDeadline (some RequestWriteDeadline),
         .writeFrame request, .setWriteDeadline none,
         .setReadDeadline maxPeerResponseTime, .readFrame, .setWriteDeadline none]
      match rsp.error with
      | some e => ⟨pre ++ [.closeStream], some (.fromCode e.module e.code e.message), none⟩
      | none =>
          match env.decode rsp.ok with
          | some v => ⟨pre ++ [.closeStream], none, some v⟩
          | none => ⟨pre ++ [.closeStream], some .decodeFailed, none⟩

/-- Whether an attempt with this behavior fails (transport failure, error
envelope, or decode failure of the Ok payload). -/
def attemptFails (env : Env) (b : AttemptBehavior) : Bool :=
  match b.outcome with
  | .respond rsp => rsp.error.isSome || (env.decode rsp.ok).isNone
  | _ => true

/-- Result of one `client.call` invocation: stream trace, peer manager
recordings performed, the returned feedback handle, the returned error, the
response container content, the elapsed duration, the next transport attempt
index of the oracle, and the start instants of the transport attempts actually
performed (empty when the context was already done). -/
structure CallAttempt where
  trace : List StreamAction
  events : List Ev
  pf : Option PeerFeedbackH
  err : Option CallError
  container : Option Bytes
  duration : Nat
  nextAttemptIdx : Nat
  starts : List Nat
deriving DecidableEq

/-- `client.call`: first the non-blocking context check — if the caller
context is already done, return its error at once, performing no transport
work; otherwise perform `sendRequestAndDecodeResponse`; on error record a
failure against the peer with the elapsed latency and return no handle; on
success return the feedback handle bound to the peer and the elapsed
latency. -/
def clientCall (env : Env) (peer : PeerID) (request : Request)
    (maxPeerResponseTime : Nat) (aIdx t : Nat) : CallAttempt :=
  if env.isDone t then
    ⟨[], [], none, some .cancelled, none, 0, aIdx, []⟩
  else
    let b := env.attempt aIdx
    let s := sendRequestAndDecodeResponse env peer request maxPeerResponseTime b
    match s.err with
    | some e =>
        ⟨s.trace, [.recordFailure peer b.duration], none, some e, none,
          b.duration, aIdx + 1, [t]⟩
    | none =>
        ⟨s.trace, [], some ⟨peer, b.duration⟩, none, s.container,
          b.duration, aIdx + 1, [t]⟩

/-- Result of one round (`tryPeers`): the peers for which `client.call` was
invoked in order, the recordings performed, the value of the captured `pf`
variable, the round error (`none` on success, otherwise the constant
exhaustion error), the response container, the transport attempt start
instants, and the final attempt index and clock. -/
structure RoundOut where
  tried : List PeerID
  events : List Ev
  pfVar : Option PeerFeedbackH
  err : Option CallError
  container : Option Bytes
  attemptStarts : List Nat
  aIdx : Nat
  t : Nat
deriving DecidableEq

/-- The peer loop of `tryPeers`: walk the ranked list in order, skip peers the
filter rejects, invoke `client.call` on each remaining peer; the first
successful call ends the round with its handle; when the list is exhausted the
round fails with the constant exhaustion error.  The captured `pf` variable is
overwritten by every call (failed calls set it to nothing). -/
def tryPeersAux (env : Env) (request : Request) (maxPeerResponseTime : Nat) :
    List PeerID → Option PeerFeedbackH → Nat → Nat → RoundOut
  | [], pfIn, aIdx, t => ⟨[], [], pfIn, some .callFailedAllPeers, none, [], aIdx, t⟩
  | peer :: rest, pfIn, aIdx, t =>
      if env.accept peer then
        let r := clientCall env peer request maxPeerResponseTime aIdx t
        match r.err with
        | none =>
            ⟨[peer], r.events, r.pf, none, r.container, r.starts,
              r.nextAttemptIdx, t + r.duration⟩
        | some _ =>
            let rest' := tryPeersAux env request maxPeerResponseTime rest r.pf
              r.nextAttemptIdx (t + r.duration)
            ⟨peer :: rest'.tried, r.events ++ rest'.events, rest'.pfVar, rest'.err,
              rest'.container, r.starts ++ rest'.attemptStarts, rest'.aIdx, rest'.t⟩
      else
        tryPeersAux env request maxPeerResponseTime rest pfIn aIdx t

/-- Per-call options: `retryInterval` and `maxRetries`. -/
structure CallOptions where
  retryInterval : Nat
  maxRetries : Nat
deriving DecidableEq

/-- The `CallOptions` value `Call` starts from before applying the setters:
`retryInterval` defaults to `DefaultCallRetryInterval` and `maxRetries` to
zero. -/
def defaultCallOptions : CallOptions := ⟨DefaultCallRetryInterval, 0⟩

/-- Result of `Call`: the returned feedback handle and error, the response
container, the recordings performed, the number of rounds run, the durations
of the completed inter-round waits, and the start instants of every transport
attempt performed. -/
structure CallOut where
  pf : Option PeerFeedbackH
  err : Option CallError
  container : Option Bytes
  events : List Ev
  rounds : Nat
  sleeps : List Nat
  attemptStarts : List Nat
deriving DecidableEq

/-- The retry loop of `Call` when `maxRetries > 0`: constant backoff with a
retry bound, made context aware.  Run a round; on success stop.  Otherwise ask
for the next backoff: if the context is done, return its error; if the retries
are exhausted, return the last round error; otherwise wait `retryInterval`,
returning the context error if the context becomes done during the wait, and
run the next round with a fresh ranking query. -/
def retryLoop (env : Env) (request : Request) (maxPeerResponseTime retryInterval : Nat) :
    Nat → Nat → Nat → Nat → Option PeerFeedbackH → CallOut
  | 0, gbIdx, aIdx, t, pfIn =>
      let r := tryPeersAux env request maxPeerResponseTime (env.bestPeers gbIdx) pfIn aIdx t
      match r.err with
      | none => ⟨r.pfVar, none, r.container, r.events, 1, [], r.attemptStarts⟩
      | some e =>
          if env.isDone r.t then
            ⟨r.pfVar, some .cancelled, r.container, r.events, 1, [], r.attemptStarts⟩
          else
            ⟨r.pfVar, some e, r.container, r.events, 1, [], r.attemptStarts⟩
  | fuel + 1, gbIdx, aIdx, t, pfIn =>
      let r := tryPeersAux env request maxPeerResponseTime (env.bestPeers gbIdx) pfIn aIdx t
      match r.err with
      | none => ⟨r.pfVar, none, r.container, r.events, 1, [], r.attemptStarts⟩
      | some _ =>
          if env.isDone r.t then
            ⟨r.pfVar, some .cancelled, r.container, r.events, 1, [], r.attemptStarts⟩
          else if env.isDone (r.t + retryInterval) then
            ⟨r.pfVar, some .cancelled, r.container, r.events, 1, [], r.attemptStarts⟩
          else
            let rest := retryLoop env request maxPeerResponseTime retryInterval fuel
              (gbIdx + 1) r.aIdx (r.t + retryInterval) r.pfVar
            ⟨rest.pf, rest.err, rest.container, r.events ++ rest.events,
              rest.rounds + 1, retryInterval :: rest.sleeps,
              r.attemptStarts ++ rest.attemptStarts⟩

/-- `client.Call`: serialize the body once into the request envelope; when
`maxRetries` is positive run `tryPeers` under the retry helper, otherwise run
a single round and return its outcome together with the captured `pf`
variable. -/
def Call (env : Env) (method : String) (body : Bytes) (maxPeerResponseTime : Nat)
    (co : CallOptions) : CallOut :=
  let request : Request := ⟨method, env.marshal body⟩
  if 0 < co.maxRetries then
    retryLoop env request maxPeerResponseTime co.retryInterval co.maxRetries 0 0 0 none
  else
    let r := tryPeersAux env request maxPeerResponseTime (env.bestPeers 0) none 0 0
    ⟨r.pfVar, r.err, r.container, r.events, 1, [], r.attemptStarts⟩

/-- Result of `CallMulti`: the collected responses and feedback handles, the
returned error, the per-task reports (in task submission order), and the size
the worker pool was resized to. -/
structure MultiOut where
  rsps : List (Option Bytes)
  pfs : List (Option PeerFeedbackH)
  err : Option CallError
  reports : List CallAttempt
  poolSize : Nat
deriving DecidableEq

/-- The gathering loop of `CallMulti`: walk the per-task result channels in
task submission order; at each step, if cancellation is observed, return nil
results and the context error at once; otherwise take the task report,
skipping failed ones and appending the response and handle of successful
ones. -/
def gatherResults (cancel : Nat → Bool) :
    List CallAttempt → Nat →
      List (Option Bytes) × List (Option PeerFeedbackH) × Option CallError
  | [], _ => ([], [], none)
  | r :: rest, i =>
      if cancel i then ([], [], some .cancelled)
      else if r.err.isSome then gatherResults cancel rest (i + 1)
      else
        match gatherResults cancel rest (i + 1) with
        | (_, _, some e) => ([], [], some e)
        | (rsps, pfs, none) => (r.container :: rsps, r.pf :: pfs, none)

/-- The per-task reports of `CallMulti`: the i-th accepted peer gets one
single-attempt task, using the i-th transport attempt behavior of the oracle
and starting at the instant the scheduler runs it. -/
def multiReports (env : Env) (request : Request) (maxPeerResponseTime : Nat) :
    List CallAttempt :=
  (((env.bestPeers 0).filter env.accept).enum).map fun p =>
    clientCall env p.2 request maxPeerResponseTime p.1 (env.taskStart p.1)

/-- `client.CallMulti`: serialize the body once; query the ranking once;
filter by acceptability; submit one single-attempt task per accepted peer to
the worker pool (resized to `maxParallelRequests`), the i-th task reporting
over its own channel; then gather the reports in task submission order. -/
def CallMulti (env : Env) (method : String) (body : Bytes)
    (maxPeerResponseTime maxParallelRequests : Nat) : MultiOut :=
  let request : Request := ⟨method, env.marshal body⟩
  match gatherResults env.gatherCancel (multiReports env request maxPeerResponseTime) 0 with
  | (rsps, pfs, e) =>
      ⟨rsps, pfs, e, multiReports env request maxPeerResponseTime, maxParallelRequests⟩

/-- The ranked peers accepted by the filter, in ranking order. -/
def acceptedPeers (env : Env) (gbIdx : Nat) : List PeerID :=
  (env.bestPeers gbIdx).filter env.accept

/-- The first round of a call: `tryPeers` on the first ranking query, starting
with an empty `pf` variable at attempt index 0 and instant 0. -/
def roundOf (env : Env) (request : Request) (maxPeerResponseTime : Nat) : RoundOut :=
  tryPeersAux env request maxPeerResponseTime (env.bestPeers 0) none 0 0

/-- Length of the run of failing attempts the oracle produces from attempt
index `aIdx` on, bounded by the second argument. -/
def failStreak (env : Env) : Nat → Nat → Nat
  | _, 0 => 0
  | aIdx, n + 1 =>
      if attemptFails env (env.attempt aIdx) then failStreak env (aIdx + 1) n + 1
      else 0

/-- The full ordered sequence of non-close stream operations of one transport
attempt, as performed by `sendRequestAndDecodeResponse`. -/
def attemptActions (peer : PeerID) (request : Request) (maxPeerResponseTime : Nat) :
    List StreamAction :=
  [.openStream peer, .setWriteDeadline (some RequestWriteDeadline),
   .writeFrame request, .setWriteDeadline none,
   .setReadDeadline maxPeerResponseTime, .readFrame, .setWriteDeadline none]

/-- Whether a stream operation sets a deadline. -/
def isDeadlineSet : StreamAction → Bool
  | .setWriteDeadline _ => true
  | .setReadDeadline _ => true
  | _ => false

/-- Whether a stream operation is the stream open. -/
def isOpenStream : StreamAction → Bool
  | .openStream _ => true
  | _ => false

/-- Whether some deadline is set before the stream open in an attempt trace. -/
def openBoundedByDeadline (trace : List StreamAction) : Bool :=
  (trace.takeWhile fun a => !isOpenStream a).any isDeadlineSet

/-- Modelled from the spec: the worker pool used by `CallMulti` (the pool
package itself is not part of the sources here, only its creation, resizing
and task submission are) — a fixed-size pool of workers, each executing at
most one queued task at a time.  The state holds one busy flag per worker and
the number of queued tasks. -/
structure WorkerPool where
  workers : List Bool
  queued : Nat
deriving DecidableEq

/-- Number of tasks currently in flight: the busy workers. -/
def WorkerPool.inFlight (s : WorkerPool) : Nat := s.workers.count true

/-- A fresh pool resized to `size` workers, all idle, nothing queued. -/
def WorkerPool.init (size : Nat) : WorkerPool := ⟨List.replicate size false, 0⟩

/-- Modelled from the spec: the pool transitions — submitting a task queues
it; an idle worker may start one queued task; a busy worker may finish its
task.  A task never runs except on a worker. -/
inductive PoolStep : WorkerPool → WorkerPool → Prop where
  | submit (s : WorkerPool) : PoolStep s ⟨s.workers, s.queued + 1⟩
  | start (s : WorkerPool) (i : Nat) (hfree : s.workers[i]? = some false)
      (hq : 0 < s.queued) : PoolStep s ⟨s.workers.set i true, s.queued - 1⟩
  | finish (s : WorkerPool) (i : Nat) (hbusy : s.workers[i]? = some true) :
      PoolStep s ⟨s.workers.set i false, s.queued⟩

/-- Modelled from the source submission loop of `CallMulti` under the shared
range-variable semantics of the Go toolchains contemporary with this code:
every closure submitted to the pool captures the single loop variable `peer`
(there is no per-iteration rebinding before the closure), and the loop keeps
advancing that variable while the queued tasks wait for a worker.  Under a
schedule in which every queued task begins only after the submission loop has
completed, each task reads the final value of the variable, so these are the
peers the tasks actually target. -/
def callMultiTargetsLateSchedule (accepted : List PeerID) : List PeerID :=
  match accepted.getLast? with
  | none => []
  | some p => List.replicate accepted.length p

/-- A transport attempt that succeeds in 10 ms with Ok payload `[7]`. -/
def okBehavior : AttemptBehavior := ⟨10, .respond ⟨[7], none⟩⟩

/-- A transport attempt answered in 5 ms by the error envelope
(module "mod", code 7, message "boom"). -/
def appErrBehavior : AttemptBehavior := ⟨5, .respond ⟨[], some ⟨"mod", 7, "boom"⟩⟩⟩

/-- Oracle with two accepted peers whose attempts all succeed, and whose
caller cancels while the gathering loop of `CallMulti` is between the first
and the second result: cancellation is observed at gather step 1, after the
result of task 0 has arrived and been collected. -/
def env1 : Env :=
  { bestPeers := fun _ => [1, 2]
    accept := fun _ => true
    attempt := fun _ => okBehavior
    decode := fun bs => some bs
    marshal := fun bs => bs
    cancelAt := some 1000000
    taskStart := fun _ => 0
    gatherCancel := fun i => decide (1 ≤ i) }

/-- Oracle with a single peer that always answers with the application error
(module "mod", code 7, message "boom"); the caller never cancels. -/
def env2 : Env :=
  { bestPeers := fun _ => [1]
    accept := fun _ => true
    attempt := fun _ => appErrBehavior
    decode := fun bs => some bs
    marshal := fun bs => bs
    cancelAt := none
    taskStart := fun _ => 0
    gatherCancel := fun _ => false }

theorem sendErr_ne_cancelled (env : Env) (peer : PeerID) (request : Request)
    (mprt : Nat) (b : AttemptBehavior) :
    (sendRequestAndDecodeResponse env peer request mprt b).err ≠ some .cancelled := by
  unfold sendRequestAndDecodeResponse
  cases b.outcome with
  | openFail => simp
  | writeFail => simp
  | readFail => simp
  | respond rsp =>
      cases h : rsp.error with
      | some e => simp [h]
      | none =>
          cases hd : env.decode rsp.ok with
          | some v => simp [h, hd]
          | none => simp [h, hd]

theorem sendErr_isSome (env : Env) (peer : PeerID) (request : Request)
    (mprt : Nat) (b : AttemptBehavior) :
    (sendRequestAndDecodeResponse env peer request mprt b).err.isSome = attemptFails env b := by
  unfold sendRequestAndDecodeResponse attemptFails
  cases b.outcome with
  | openFail => simp
  | writeFail => simp
  | readFail => simp
  | respond rsp =>
      cases h : rsp.error with
      | some e => simp [h]
      | none =>
          cases hd : env.decode rsp.ok with
          | some v => simp [h, hd]
          | none => simp [h, hd]

theorem clientCall_done (env : Env) (peer : PeerID) (request : Request)
    (mprt aIdx t : Nat) (h : env.isDone t = true) :
    clientCall env peer request mprt aIdx t
      = ⟨[], [], none, some .cancelled, none, 0, aIdx, []⟩ := by
  unfold clientCall
  simp [h]

theorem clientCall_fields (env : Env) (peer : PeerID) (request : Request)
    (mprt aIdx t : Nat) (h : env.isDone t = false) :
    (clientCall env peer request mprt aIdx t).duration = (env.attempt aIdx).duration
    ∧ (clientCall env peer request mprt aIdx t).nextAttemptIdx = aIdx + 1
    ∧ (clientCall env peer request mprt aIdx t).starts = [t]
    ∧ (clientCall env peer request mprt aIdx t).err.isSome
        = attemptFails env (env.attempt aIdx)
    ∧ ((clientCall env peer request mprt aIdx t).err = none →
        (clientCall env peer request mprt aIdx t).pf
          = some ⟨peer, (env.attempt aIdx).duration⟩
        ∧ (clientCall env peer request mprt aIdx t).events = [])
    ∧ (∀ e, (clientCall env peer request mprt aIdx t).err = some e →
        (clientCall env peer request mprt aIdx t).pf = none
        ∧ (clientCall env peer request mprt aIdx t).events
            = [.recordFailure peer (env.attempt aIdx).duration]) := by
  unfold clientCall
  simp only [h, Bool.false_eq_true, if_false]
  cases hs : (sendRequestAndDecodeResponse env peer request mprt (env.attempt aIdx)).err with
  | none =>
      refine ⟨rfl, rfl, rfl, ?_, ?_, ?_⟩
      · rw [← sendErr_isSome env peer request mprt (env.attempt aIdx), hs]
      · intro _; exact ⟨rfl, rfl⟩
      · intro e he; simp [hs] at he
  | some e =>
      refine ⟨rfl, rfl, rfl, ?_, ?_, ?_⟩
      · rw [← sendErr_isSome env peer request mprt (env.attempt aIdx), hs]
      · intro hc; simp [hs] at hc
      · intro e' _; exact ⟨rfl, rfl⟩

theorem clientCall_pf_none_of_err (env : Env) (peer : PeerID) (request : Request)
    (mprt aIdx t : Nat) (e : CallError)
    (h : (clientCall env peer request mprt aIdx t).err = some e) :
    (clientCall env peer request mprt aIdx t).pf = none := by
  cases hd : env.isDone t with
  | true => rw [clientCall_done env peer request mprt aIdx t hd]
  | false => exact ((clientCall_fields env peer request mprt aIdx t hd).2.2.2.2.2 e h).1

theorem round_pf (env : Env) (request : Request) (mprt : Nat) :
    ∀ (peers : List PeerID) (aIdx t : Nat),
      ((tryPeersAux env request mprt peers none aIdx t).err = none ↔
        (tryPeersAux env request mprt peers none aIdx t).pfVar.isSome = true) := by
  intro peers
  induction peers with
  | nil => intro aIdx t; simp [tryPeersAux]
  | cons p rest ih =>
      intro aIdx t
      cases ha : env.accept p with
      | false => simp [tryPeersAux, ha, ih]
      | true =>
          cases hr : (clientCall env p request mprt aIdx t).err with
          | none =>
              cases hd : env.isDone t with
              | true => rw [clientCall_done env p request mprt aIdx t hd] at hr; cases hr
              | false =>
                  obtain ⟨hpf, -⟩ := (clientCall_fields env p request mprt aIdx t hd).2.2.2.2.1 hr
                  simp [tryPeersAux, ha, hr, hpf]
          | some e =>
              have hpf := clientCall_pf_none_of_err env p request mprt aIdx t e hr
              simp [tryPeersAux, ha, hr, hpf, ih]

theorem round_err_shape (env : Env) (request : Request) (mprt : Nat) :
    ∀ (peers : List PeerID) (pfIn : Option PeerFeedbackH) (aIdx t : Nat),
      (tryPeersAux env request mprt peers pfIn aIdx t).err = none
      ∨ (tryPeersAux env request mprt peers pfIn aIdx t).err = some .callFailedAllPeers := by
  intro peers
  induction peers with
  | nil => intro pfIn aIdx t; right; rfl
  | cons p rest ih =>
      intro pfIn aIdx t
      cases ha : env.accept p with
      | false => simpa [tryPeersAux, ha] using ih pfIn aIdx t
      | true =>
          cases hr : (clientCall env p request mprt aIdx t).err with
          | none => left; simp [tryPeersAux, ha, hr]
          | some e =>
              simpa [tryPeersAux, ha, hr] using
                ih (clientCall env p request mprt aIdx t).pf
                  (clientCall env p request mprt aIdx t).nextAttemptIdx
                  (t + (clientCall env p request mprt aIdx t).duration)

theorem round_starts (env : Env) (request : Request) (mprt : Nat) :
    ∀ (peers : List PeerID) (pfIn : Option PeerFeedbackH) (aIdx t : Nat),
      ∀ s ∈ (tryPeersAux env request mprt peers pfIn aIdx t).attemptStarts,
        env.isDone s = false := by
  intro peers
  induction peers with
  | nil => intro pfIn aIdx t s hs; simp [tryPeersAux] at hs
  | cons p rest ih =>
      intro pfIn aIdx t s hs
      cases ha : env.accept p with
      | false =>
          rw [tryPeersAux] at hs
          simp only [ha, Bool.false_eq_true, if_false] at hs
          exact ih pfIn aIdx t s hs
      | true =>
          cases hd : env.isDone t with
          | true =>
              rw [tryPeersAux] at hs
              simp only [ha, if_true] at hs
              rw [clientCall_done env p request mprt aIdx t hd] at hs
              simp at hs
              exact ih _ _ _ s hs
          | false =>
              have hst := (clientCall_fields env p request mprt aIdx t hd).2.2.1
              cases hr : (clientCall env p request mprt aIdx t).err with
              | none =>
                  rw [tryPeersAux] at hs
                  simp only [ha, if_true, hr, hst] at hs
                  simp at hs
                  exact hs ▸ hd
              | some e =>
                  rw [tryPeersAux] at hs
                  simp only [ha, if_true, hr, hst] at hs
                  simp at hs
                  rcases hs with h | h
                  · exact h ▸ hd
                  · exact ih _ _ _ s h

theorem loop_rounds (env : Env) (request : Request) (mprt ri : Nat) :
    ∀ (fuel gbIdx aIdx t : Nat) (pfIn : Option PeerFeedbackH),
      (retryLoop env request mprt ri fuel gbIdx aIdx t pfIn).rounds ≤ fuel + 1 := by
  intro fuel
  induction fuel with
  | zero =>
      intro gbIdx aIdx t pfIn
      rw [retryLoop]
      cases hre : (tryPeersAux env request mprt (env.bestPeers gbIdx) pfIn aIdx t).err with
      | none => simp
      | some e =>
          cases hd : env.isDone (tryPeersAux env request mprt (env.bestPeers gbIdx) pfIn aIdx t).t with
          | true => simp [hd]
          | false => simp [hd]
  | succ fuel ih =>
      intro gbIdx aIdx t pfIn
      rw [retryLoop]
      cases hre : (tryPeersAux env request mprt (env.bestPeers gbIdx) pfIn aIdx t).err with
      | none => simp
      | some e =>
          cases hd : env.isDone (tryPeersAux env request mprt (env.bestPeers gbIdx) pfIn aIdx t).t with
          | true => simp [hd]
          | false =>
              cases hd2 : env.isDone ((tryPeersAux env request mprt (env.bestPeers gbIdx) pfIn aIdx t).t + ri) with
              | true => simp [hd, hd2]
              | false =>
                  simp only [hd, hd2, Bool.false_eq_true, if_false]
                  have := ih (gbIdx + 1)
                    (tryPeersAux env request mprt (env.bestPeers gbIdx) pfIn aIdx t).aIdx
                    ((tryPeersAux env request mprt (env.bestPeers gbIdx) pfIn aIdx t).t + ri)
                    (tryPeersAux env request mprt (env.bestPeers gbIdx) pfIn aIdx t).pfVar
                  omega

theorem loop_sleeps (env : Env) (request : Request) (mprt ri : Nat) :
    ∀ (fuel gbIdx aIdx t : Nat) (pfIn : Option PeerFeedbackH),
      ∀ d ∈ (retryLoop env request mprt ri fuel gbIdx aIdx t pfIn).sleeps, d = ri := by
  intro fuel
  induction fuel with
  | zero =>
      intro gbIdx aIdx t pfIn d hd
      rw [retryLoop] at hd
      cases hre : (tryPeersAux env request mprt (env.bestPeers gbIdx) pfIn aIdx t).err with
      | none => simp [hre] at hd
      | some e =>
          simp only [hre] at hd
          cases hd1 : env.isDone (tryPeersAux env request mprt (env.bestPeers gbIdx) pfIn aIdx t).t with
          | true => simp [hd1] at hd
          | false => simp [hd1] at hd
  | succ fuel ih =>
      intro gbIdx aIdx t pfIn d hd
      rw [retryLoop] at hd
      cases hre : (tryPeersAux env request mprt (env.bestPeers gbIdx) pfIn aIdx t).err with
      | none => simp [hre] at hd
      | some e =>
          simp only [hre] at hd
          cases hd1 : env.isDone (tryPeersAux env request mprt (env.bestPeers gbIdx) pfIn aIdx t).t with
          | true => simp [hd1] at hd
          | false =>
              cases hd2 : env.isDone ((tryPeersAux env request mprt (env.bestPeers gbIdx) pfIn aIdx t).t + ri) with
              | true => simp [hd1, hd2] at hd
              | false =>
                  simp only [hd1, hd2, Bool.false_eq_true, if_false, List.mem_cons] at hd
                  rcases hd with h | h
                  · exact h
                  · exact ih _ _ _ _ d h

theorem loop_starts (env : Env) (request : Request) (mprt ri : Nat) :
    ∀ (fuel gbIdx aIdx t : Nat) (pfIn : Option PeerFeedbackH),
      ∀ s ∈ (retryLoop env request mprt ri fuel gbIdx aIdx t pfIn).attemptStarts,
        env.isDone s = false := by
  intro fuel
  induction fuel with
  | zero =>
      intro gbIdx aIdx t pfIn s hs
      rw [retryLoop] at hs
      cases hre : (tryPeersAux env request mprt (env.bestPeers gbIdx) pfIn aIdx t).err with
      | none =>
          simp only [hre] at hs
          exact round_starts env request mprt _ _ _ _ s hs
      | some e =>
          simp only [hre] at hs
          cases hd1 : env.isDone (tryPeersAux env request mprt (env.bestPeers gbIdx) pfIn aIdx t).t with
          | true =>
              simp only [hd1, if_true] at hs
              exact round_starts env request mprt _ _ _ _ s hs
          | false =>
              simp only [hd1, Bool.false_eq_true, if_false] at hs
              exact round_starts env request mprt _ _ _ _ s hs
  | succ fuel ih =>
      intro gbIdx aIdx t pfIn s hs
      rw [retryLoop] at hs
      cases hre : (tryPeersAux env request mprt (env.bestPeers gbIdx) pfIn aIdx t).err with
      | none =>
          simp only [hre] at hs
          exact round_starts env request mprt _ _ _ _ s hs
      | some e =>
          simp only [hre] at hs
          cases hd1 : env.isDone (tryPeersAux env request mprt (env.bestPeers gbIdx) pfIn aIdx t).t with
          | true =>
              simp only [hd1, if_true] at hs
              exact round_starts env request mprt _ _ _ _ s hs
          | false =>
              cases hd2 : env.isDone ((tryPeersAux env request mprt (env.bestPeers gbIdx) pfIn aIdx t).t + ri) with
              | true =>
                  simp only [hd1, hd2, Bool.false_eq_true, if_false, if_true] at hs
                  exact round_starts env request mprt _ _ _ _ s hs
              | false =>
                  simp only [hd1, hd2, Bool.false_eq_true, if_false, List.mem_append] at hs
                  rcases hs with h | h
                  · exact round_starts env request mprt _ _ _ _ s h
                  · exact ih _ _ _ _ s h

theorem round_pf_none (env : Env) (request : Request) (mprt : Nat)
    (peers : List PeerID) (aIdx t : Nat)
    (h : (tryPeersAux env request mprt peers none aIdx t).err ≠ none) :
    (tryPeersAux env request mprt peers none aIdx t).pfVar = none := by
  cases hp : (tryPeersAux env request mprt peers none aIdx t).pfVar with
  | none => rfl
  | some pf =>
      exact absurd ((round_pf env request mprt peers aIdx t).mpr (by simp [hp])) h

theorem loop_pf (env : Env) (request : Request) (mprt ri : Nat) :
    ∀ (fuel gbIdx aIdx t : Nat),
      ((retryLoop env request mprt ri fuel gbIdx aIdx t none).err = none ↔
        (retryLoop env request mprt ri fuel gbIdx aIdx t none).pf.isSome = true) := by
  intro fuel
  induction fuel with
  | zero =>
      intro gbIdx aIdx t
      rw [retryLoop]
      cases hre : (tryPeersAux env request mprt (env.bestPeers gbIdx) none aIdx t).err with
      | none =>
          simp only []
          constructor
          · intro _
            exact (round_pf env request mprt (env.bestPeers gbIdx) aIdx t).mp hre
          · intro _; trivial
      | some e =>
          have hpn := round_pf_none env request mprt (env.bestPeers gbIdx) aIdx t (by simp [hre])
          cases hd1 : env.isDone (tryPeersAux env request mprt (env.bestPeers gbIdx) none aIdx t).t with
          | true => simp [hd1, hpn]
          | false => simp [hd1, hpn]
  | succ fuel ih =>
      intro gbIdx aIdx t
      rw [retryLoop]
      cases hre : (tryPeersAux env request mprt (env.bestPeers gbIdx) none aIdx t).err with
      | none =>
          simp only []
          constructor
          · intro _
            exact (round_pf env request mprt (env.bestPeers gbIdx) aIdx t).mp hre
          · intro _; trivial
      | some e =>
          have hpn := round_pf_none env request mprt (env.bestPeers gbIdx) aIdx t (by simp [hre])
          cases hd1 : env.isDone (tryPeersAux env request mprt (env.bestPeers gbIdx) none aIdx t).t with
          | true => simp [hd1, hpn]
          | false =>
              cases hd2 : env.isDone ((tryPeersAux env request mprt (env.bestPeers gbIdx) none aIdx t).t + ri) with
              | true => simp [hd1, hd2, hpn]
              | false =>
                  simp only [hd1, hd2, Bool.false_eq_true, if_false, hpn]
                  exact ih (gbIdx + 1)
                    (tryPeersAux env request mprt (env.bestPeers gbIdx) none aIdx t).aIdx
                    ((tryPeersAux env request mprt (env.bestPeers gbIdx) none aIdx t).t + ri)

theorem Call_pf_iff (env : Env) (method : String) (body : Bytes) (mprt : Nat)
    (co : CallOptions) :
    ((Call env method body mprt co).err = none ↔
      (Call env method body mprt co).pf.isSome = true) := by
  unfold Call
  by_cases hm : 0 < co.maxRetries
  · simp only [hm, if_true]
    exact loop_pf env ⟨method, env.marshal body⟩ mprt co.retryInterval co.maxRetries 0 0 0
  · simp only [hm, if_false]
    constructor
    · intro h
      exact (round_pf env ⟨method, env.marshal body⟩ mprt (env.bestPeers 0) 0 0).mp h
    · intro h
      exact (round_pf env ⟨method, env.marshal body⟩ mprt (env.bestPeers 0) 0 0).mpr h

theorem Call_rounds_le (env : Env) (method : String) (body : Bytes) (mprt : Nat)
    (co : CallOptions) :
    (Call env method body mprt co).rounds ≤ co.maxRetries + 1 := by
  unfold Call
  by_cases hm : 0 < co.maxRetries
  · simp only [hm, if_true]
    exact loop_rounds env ⟨method, env.marshal body⟩ mprt co.retryInterval co.maxRetries 0 0 0 none
  · simp only [hm, if_false]
    exact Nat.le_add_left 1 co.maxRetries

theorem Call_sleeps (env : Env) (method : String) (body : Bytes) (mprt : Nat)
    (co : CallOptions) :
    ∀ d ∈ (Call env method body mprt co).sleeps, d = co.retryInterval := by
  unfold Call
  by_cases hm : 0 < co.maxRetries
  · simp only [hm, if_true]
    exact loop_sleeps env ⟨method, env.marshal body⟩ mprt co.retryInterval co.maxRetries 0 0 0 none
  · simp only [hm, if_false]
    intro d hd
    simp at hd

theorem Call_starts (env : Env) (method : String) (body : Bytes) (mprt : Nat)
    (co : CallOptions) :
    ∀ s ∈ (Call env method body mprt co).attemptStarts, env.isDone s = false := by
  unfold Call
  by_cases hm : 0 < co.maxRetries
  · simp only [hm, if_true]
    exact loop_starts env ⟨method, env.marshal body⟩ mprt co.retryInterval co.maxRetries 0 0 0 none
  · simp only [hm, if_false]
    exact round_starts env ⟨method, env.marshal body⟩ mprt (env.bestPeers 0) none 0 0

theorem isDone_none (env : Env) (h : env.cancelAt = none) (t : Nat) :
    env.isDone t = false := by
  unfold Env.isDone
  rw [h]

theorem round_fails (env : Env) (request : Request) (mprt : Nat)
    (hnc : env.cancelAt = none)
    (hf : ∀ i, attemptFails env (env.attempt i) = true) :
    ∀ (peers : List PeerID) (pfIn : Option PeerFeedbackH) (aIdx t : Nat),
      (tryPeersAux env request mprt peers pfIn aIdx t).err = some .callFailedAllPeers := by
  intro peers
  induction peers with
  | nil => intro pfIn aIdx t; rfl
  | cons p rest ih =>
      intro pfIn aIdx t
      cases ha : env.accept p with
      | false => simp [tryPeersAux, ha, ih]
      | true =>
          have hd := isDone_none env hnc t
          have hsome : (clientCall env p request mprt aIdx t).err.isSome = true := by
            rw [(clientCall_fields env p request mprt aIdx t hd).2.2.2.1]
            exact hf aIdx
          cases hr : (clientCall env p request mprt aIdx t).err with
          | none => rw [hr] at hsome; cases hsome
          | some e => simp [tryPeersAux, ha, hr, ih]

theorem loop_fails (env : Env) (request : Request) (mprt ri : Nat)
    (hnc : env.cancelAt = none)
    (hf : ∀ i, attemptFails env (env.attempt i) = true) :
    ∀ (fuel gbIdx aIdx t : Nat) (pfIn : Option PeerFeedbackH),
      (retryLoop env request mprt ri fuel gbIdx aIdx t pfIn).err
        = some .callFailedAllPeers := by
  intro fuel
  induction fuel with
  | zero =>
      intro gbIdx aIdx t pfIn
      rw [retryLoop]
      rw [round_fails env request mprt hnc hf (env.bestPeers gbIdx) pfIn aIdx t]
      simp [isDone_none env hnc]
  | succ fuel ih =>
      intro gbIdx aIdx t pfIn
      rw [retryLoop]
      rw [round_fails env request mprt hnc hf (env.bestPeers gbIdx) pfIn aIdx t]
      simp only [isDone_none env hnc, Bool.false_eq_true, if_false]
      exact ih _ _ _ _

theorem Call_exhaustion (env : Env) (method : String) (body : Bytes) (mprt : Nat)
    (co : CallOptions) (hnc : env.cancelAt = none)
    (hf : ∀ i, attemptFails env (env.attempt i) = true) :
    (Call env method body mprt co).err = some .callFailedAllPeers := by
  unfold Call
  by_cases hm : 0 < co.maxRetries
  · simp only [hm, if_true]
    exact loop_fails env ⟨method, env.marshal body⟩ mprt co.retryInterval hnc hf co.maxRetries 0 0 0 none
  · simp only [hm, if_false]
    exact round_fails env ⟨method, env.marshal body⟩ mprt hnc hf (env.bestPeers 0) none 0 0

theorem clientCall_err_none (env : Env) (peer : PeerID) (request : Request)
    (mprt aIdx t : Nat) (h : env.isDone t = false)
    (hf : attemptFails env (env.attempt aIdx) = false) :
    (clientCall env peer request mprt aIdx t).err = none := by
  have hiss := (clientCall_fields env peer request mprt aIdx t h).2.2.2.1
  rw [hf] at hiss
  exact Option.not_isSome_iff_eq_none.mp (by simp [hiss])

theorem round_char (env : Env) (request : Request) (mprt : Nat)
    (hnc : env.cancelAt = none) :
    ∀ (peers : List PeerID) (aIdx t : Nat),
      (failStreak env aIdx (peers.filter env.accept).length
            = (peers.filter env.accept).length →
        (tryPeersAux env request mprt peers none aIdx t).err = some .callFailedAllPeers
        ∧ (tryPeersAux env request mprt peers none aIdx t).pfVar = none
        ∧ (tryPeersAux env request mprt peers none aIdx t).tried = peers.filter env.accept)
      ∧ (failStreak env aIdx (peers.filter env.accept).length
            < (peers.filter env.accept).length →
        (tryPeersAux env request mprt peers none aIdx t).err = none
        ∧ (tryPeersAux env request mprt peers none aIdx t).pfVar
            = some ⟨(peers.filter env.accept).getD
                      (failStreak env aIdx (peers.filter env.accept).length) 0,
                    (env.attempt
                      (aIdx + failStreak env aIdx (peers.filter env.accept).length)).duration⟩
        ∧ (tryPeersAux env request mprt peers none aIdx t).tried
            = (peers.filter env.accept).take
                (failStreak env aIdx (peers.filter env.accept).length + 1)) := by
  intro peers
  induction peers with
  | nil =>
      intro aIdx t
      constructor
      · intro _
        exact ⟨rfl, rfl, rfl⟩
      · intro h
        simp [List.filter] at h
  | cons p rest ih =>
      intro aIdx t
      have hd := isDone_none env hnc t
      cases ha : env.accept p with
      | false =>
          simpa [List.filter_cons, ha, tryPeersAux] using ih aIdx t
      | true =>
          obtain ⟨hdur, hnext, hst, hiss, hok, herr⟩ :=
            clientCall_fields env p request mprt aIdx t hd
          cases hfa : attemptFails env (env.attempt aIdx) with
          | false =>
              have hr := clientCall_err_none env p request mprt aIdx t hd hfa
              obtain ⟨hpf, hev⟩ := hok hr
              constructor
              · intro hk
                rw [List.filter_cons, if_pos (by simp [ha])] at hk
                simp [failStreak, hfa] at hk
              · intro _
                refine ⟨?_, ?_, ?_⟩
                · simp [tryPeersAux, ha, hr]
                · simp only [List.filter_cons, if_pos (by simp [ha] : env.accept p = true)]
                  simp [tryPeersAux, ha, hr, hpf, failStreak, hfa, hdur]
                · simp only [List.filter_cons, if_pos (by simp [ha] : env.accept p = true)]
                  simp [tryPeersAux, ha, hr, failStreak, hfa]
          | true =>
              have hsome : (clientCall env p request mprt aIdx t).err.isSome = true := by
                rw [hiss]; exact hfa
              cases hr : (clientCall env p request mprt aIdx t).err with
              | none => rw [hr] at hsome; cases hsome
              | some e =>
                  have hpf := (herr e hr).1
                  have ihh := ih (aIdx + 1) (t + (clientCall env p request mprt aIdx t).duration)
                  constructor
                  · intro hk
                    rw [List.filter_cons, if_pos (by simp [ha] : env.accept p = true)] at hk
                    simp only [List.length_cons, failStreak, hfa, if_pos] at hk
                    have hk' : failStreak env (aIdx + 1) (rest.filter env.accept).length
                        = (rest.filter env.accept).length := by omega
                    obtain ⟨h1, h2, h3⟩ := ihh.1 hk'
                    refine ⟨?_, ?_, ?_⟩
                    · simp only [tryPeersAux, ha, if_true, hr, hpf, hnext]
                      simpa using h1
                    · simp only [tryPeersAux, ha, if_true, hr, hpf, hnext]
                      simpa using h2
                    · simp only [tryPeersAux, ha, if_true, hr, hpf, hnext]
                      rw [List.filter_cons, if_pos (by simp [ha] : env.accept p = true)]
                      simpa using h3
                  · intro hk
                    rw [List.filter_cons, if_pos (by simp [ha] : env.accept p = true)] at hk
                    simp only [List.length_cons, failStreak, hfa, if_pos] at hk
                    have hk' : failStreak env (aIdx + 1) (rest.filter env.accept).length
                        < (rest.filter env.accept).length := by omega
                    obtain ⟨h1, h2, h3⟩ := ihh.2 hk'
                    refine ⟨?_, ?_, ?_⟩
                    · simp only [tryPeersAux, ha, if_true, hr, hpf, hnext]
                      simpa using h1
                    · simp only [tryPeersAux, ha, if_true, hr, hpf, hnext]
                      rw [List.filter_cons, if_pos (by simp [ha] : env.accept p = true)]
                      simp only [List.length_cons, failStreak, hfa, if_pos]
                      have harith : aIdx + (failStreak env (aIdx + 1) (rest.filter env.accept).length + 1)
                          = aIdx + 1 + failStreak env (aIdx + 1) (rest.filter env.accept).length := by
                        omega
                      rw [harith]
                      simpa [List.getD_cons_succ] using h2
                    · simp only [tryPeersAux, ha, if_true, hr, hpf, hnext]
                      rw [List.filter_cons, if_pos (by simp [ha] : env.accept p = true)]
                      simp only [List.length_cons, failStreak, hfa, if_pos]
                      rw [List.take_succ_cons]
                      simpa using h3

theorem gather_shape (cancel : Nat → Bool) :
    ∀ (rs : List CallAttempt) (i : Nat),
      (gatherResults cancel rs i).2.2 = none
      ∨ ((gatherResults cancel rs i).2.2 = some .cancelled
         ∧ (gatherResults cancel rs i).1 = []
         ∧ (gatherResults cancel rs i).2.1 = []) := by
  intro rs
  induction rs with
  | nil => intro i; left; rfl
  | cons r rest ih =>
      intro i
      rw [gatherResults]
      cases hc : cancel i with
      | true => right; simp
      | false =>
          cases he : r.err.isSome with
          | true => simpa [hc, he] using ih (i + 1)
          | false =>
              simp only [Bool.false_eq_true, if_false, he]
              rcases hg : gatherResults cancel rest (i + 1) with ⟨rsps, pfs, e⟩
              rcases ih (i + 1) with h | h <;> rw [hg] at h
              · simp only at h
                subst h
                left
                rfl
              · obtain ⟨h1, h2, h3⟩ := h
                simp only at h1 h2 h3
                subst h1; subst h2; subst h3
                right
                simp

theorem CallMulti_cancel_shape (env : Env) (method : String) (body : Bytes)
    (mprt k : Nat) :
    (CallMulti env method body mprt k).err = none
    ∨ ((CallMulti env method body mprt k).err = some .cancelled
       ∧ (CallMulti env method body mprt k).rsps = []
       ∧ (CallMulti env method body mprt k).pfs = []) :=
  gather_shape env.gatherCancel (multiReports env ⟨method, env.marshal body⟩ mprt) 0

/-- Claim C6 (amended): every transport attempt performs, in order: open the stream
(bounded by the caller context, with no explicit deadline), set the write
deadline to the fixed `RequestWriteDeadline`, write the request frame, clear
the write deadline, set the read deadline to the caller-supplied
`maxPeerResponseTime`, read the response frame, clear the write deadline
again, then decode: the non-close operations of every trace form a prefix of
that ordered sequence, the trace begins with the open, and on every path on
which the open succeeded — errors and mid-attempt cancellation included — the
stream is closed exactly once, as the last operation. -/
theorem attempt_trace_order (env : Env) (peer : PeerID) (request : Request)
    (mprt : Nat) (b : AttemptBehavior) :
    ((sendRequestAndDecodeResponse env peer request mprt b).trace.filter
        (fun a => !(a == StreamAction.closeStream)))
      = (attemptActions peer request mprt).take
          ((sendRequestAndDecodeResponse env peer request mprt b).trace.filter
            (fun a => !(a == StreamAction.closeStream))).length
    ∧ (sendRequestAndDecodeResponse env peer request mprt b).trace.head?
        = some (.openStream peer)
    ∧ (b.outcome = .openFail →
        (sendRequestAndDecodeResponse env peer request mprt b).trace
          = [.openStream peer])
    ∧ (b.outcome ≠ .openFail →
        (sendRequestAndDecodeResponse env peer request mprt b).trace.getLast?
            = some .closeStream
        ∧ (sendRequestAndDecodeResponse env peer request mprt b).trace.count
            .closeStream = 1) := by
  unfold sendRequestAndDecodeResponse attemptActions
  cases hb : b.outcome with
  | openFail =>
      refine ⟨?_, rfl, ?_, ?_⟩
      · rfl
      · intro _; rfl
      · intro h; exact absurd rfl h
  | writeFail =>
      refine ⟨?_, rfl, ?_, ?_⟩
      · rfl
      · intro h; cases h
      · intro _
        constructor
        · rfl
        · rfl
  | readFail =>
      refine ⟨?_, rfl, ?_, ?_⟩
      · rfl
      · intro h; cases h
      · intro _
        constructor
        · rfl
        · rfl
  | respond rsp =>
      cases hre : rsp.error with
      | some e =>
          refine ⟨?_, ?_, ?_, ?_⟩
          · simp only [hre]; rfl
          · simp only [hre]; rfl
          · intro h; cases h
          · intro _
            constructor
            · simp only [hre]; rfl
            · simp only [hre]; rfl
      | none =>
          cases hd : env.decode rsp.ok with
          | some v =>
              refine ⟨?_, ?_, ?_, ?_⟩
              · simp only [hre, hd]; rfl
              · simp only [hre, hd]; rfl
              · intro h; cases h
              · intro _
                constructor
                · simp only [hre, hd]; rfl
                · simp only [hre, hd]; rfl
          | none =>
              refine ⟨?_, ?_, ?_, ?_⟩
              · simp only [hre, hd]; rfl
              · simp only [hre, hd]; rfl
              · intro h; cases h
              · intro _
                constructor
                · simp only [hre, hd]; rfl
                · simp only [hre, hd]; rfl

theorem poolStep_length (s s' : WorkerPool) (h : PoolStep s s') :
    s'.workers.length = s.workers.length := by
  cases h with
  | submit => rfl
  | start i hfree hq => exact List.length_set s.workers i true
  | finish i hbusy => exact List.length_set s.workers i false

theorem pool_reachable_length (k : Nat) (s : WorkerPool)
    (h : Relation.ReflTransGen PoolStep (WorkerPool.init k) s) :
    s.workers.length = k := by
  induction h with
  | refl => exact List.length_replicate k false
  | tail hab hbc ih => rw [poolStep_length _ _ hbc, ih]

theorem pool_inFlight_le (k : Nat) (s : WorkerPool)
    (h : Relation.ReflTransGen PoolStep (WorkerPool.init k) s) :
    s.inFlight ≤ k := by
  calc s.inFlight ≤ s.workers.length := List.count_le_length true s.workers
  _ = k := pool_reachable_length k s h

theorem clientCall_err_eq (env : Env) (peer : PeerID) (request : Request)
    (mprt aIdx t : Nat) (h : env.isDone t = false) :
    (clientCall env peer request mprt aIdx t).err
      = (sendRequestAndDecodeResponse env peer request mprt (env.attempt aIdx)).err := by
  unfold clientCall
  simp only [h, Bool.false_eq_true, if_false]
  cases hs : (sendRequestAndDecodeResponse env peer request mprt (env.attempt aIdx)).err with
  | none => rfl
  | some e => rfl

/-- Claim C1 (amended): when `CallMulti` observes cancellation during result
gathering it returns nil responses, nil feedback handles and the cancellation
error, discarding any results collected so far; the collected results are
returned, with no error, only when every task report is drained before
cancellation is observed — so every outcome is either error-free or the
cancellation error with both result lists empty. -/
theorem callMulti_discards_on_cancel (env : Env) (method : String) (body : Bytes)
    (mprt k : Nat) :
    (CallMulti env method body mprt k).err = none
    ∨ ((CallMulti env method body mprt k).err = some .cancelled
       ∧ (CallMulti env method body mprt k).rsps = []
       ∧ (CallMulti env method body mprt k).pfs = []) :=
  CallMulti_cancel_shape env method body mprt k

/-- Claim C1 (counterexample): with two accepted peers whose attempts both succeed,
the first task report arrives and is collected at gather step 0, and
cancellation is observed at gather step 1; the claim asserts that the call
then returns exactly the collected results with no error, but `CallMulti`
returns no results, no feedback handles, and the cancellation error. -/
theorem callMulti_cancel_counterexample :
    (CallMulti env1 "m" [] 100 2).err = some .cancelled
    ∧ (CallMulti env1 "m" [] 100 2).rsps = []
    ∧ (CallMulti env1 "m" [] 100 2).pfs = []
    ∧ ((CallMulti env1 "m" [] 100 2).reports.head?.map CallAttempt.err) = some none
    ∧ env1.gatherCancel 0 = false
    ∧ env1.gatherCancel 1 = true := by decide

/-- Claim C2 (amended): when the caller context is never cancelled and every
transport attempt the oracle produces fails, `Call` returns the constant
exhaustion error `call failed on all peers`; this error carries no
application error, and it is distinguishable from any specific application
error and from any transport error. -/
theorem call_exhaustion_error (envBase : Env) (method : String) (body : Bytes)
    (mprt : Nat) (co : CallOptions)
    (hf : ∀ i, attemptFails envBase (envBase.attempt i) = true) :
    (Call (noCancel envBase) method body mprt co).err = some .callFailedAllPeers
    ∧ CallError.isFromCode .callFailedAllPeers = false
    ∧ CallError.isTransport .callFailedAllPeers = false :=
  ⟨Call_exhaustion (noCancel envBase) method body mprt co rfl (fun i => hf i),
    rfl, rfl⟩

/-- Witness for claim C2: the amended theorem applied to the concrete
single-peer always-app-error oracle. -/
theorem call_exhaustion_error_witness :
    (∀ i, attemptFails env2 (env2.attempt i) = true)
    ∧ ((Call (noCancel env2) "m" [] 100 defaultCallOptions).err
          = some .callFailedAllPeers
       ∧ CallError.isFromCode .callFailedAllPeers = false
       ∧ CallError.isTransport .callFailedAllPeers = false) :=
  ⟨fun _ => rfl,
    call_exhaustion_error env2 "m" [] 100 defaultCallOptions (fun _ => rfl)⟩

/-- Claim C2 (counterexample): with one peer whose answer is the application error
(module "mod", code 7, message "boom") and no retries, every peer in every
round fails and an application error was observed, yet the error `Call`
returns is the bare constant exhaustion error: it is not the application
error and includes nothing of it. -/
theorem call_exhaustion_counterexample :
    (Call env2 "m" [] 100 defaultCallOptions).err = some .callFailedAllPeers
    ∧ (env2.attempt 0).outcome = .respond ⟨[], some ⟨"mod", 7, "boom"⟩⟩
    ∧ (Call env2 "m" [] 100 defaultCallOptions).err
        ≠ some (.fromCode "mod" 7 "boom") := by decide

/-- Claim C3: for every call with `maxRetries = n` at most n + 1 rounds are run; the
completed waits separating consecutive rounds all equal the configured
`retryInterval`; the defaults are `maxRetries = 0` and `retryInterval =
DefaultCallRetryInterval` (one second); no transport attempt starts at an
instant at which the caller context is done; and a per-peer attempt whose
context is already done returns the cancellation error at once, touching no
stream. -/
theorem call_retry_bounds (env : Env) (method : String) (body : Bytes)
    (mprt : Nat) (co : CallOptions) :
    (Call env method body mprt co).rounds ≤ co.maxRetries + 1
    ∧ (∀ d ∈ (Call env method body mprt co).sleeps, d = co.retryInterval)
    ∧ (∀ s ∈ (Call env method body mprt co).attemptStarts, env.isDone s = false)
    ∧ (∀ (peer : PeerID) (request : Request) (aIdx t : Nat),
        env.isDone t = true →
          (clientCall env peer request mprt aIdx t).err = some .cancelled
          ∧ (clientCall env peer request mprt aIdx t).trace = [])
    ∧ defaultCallOptions.maxRetries = 0
    ∧ defaultCallOptions.retryInterval = DefaultCallRetryInterval := by
  refine ⟨Call_rounds_le env method body mprt co, Call_sleeps env method body mprt co,
    Call_starts env method body mprt co, ?_, rfl, rfl⟩
  intro peer request aIdx t h
  rw [clientCall_done env peer request mprt aIdx t h]
  exact ⟨rfl, rfl⟩

/-- Claim C4: within one round with no cancellation, the peers tried are exactly the
filter-accepted peers of the ranking, in ranking order, up to and including
the first whose attempt succeeds (`failStreak` counts the failing attempts
before it): when some accepted peer succeeds, the round ends successfully
with a feedback handle bound to that peer and to the elapsed duration of that
specific attempt; when all accepted attempts fail, every accepted peer was
tried and the round fails; and the three actions of a feedback handle commit
exactly the bound peer and latency (success and failure with the latency, bad
peer by identity) into the peer manager. -/
theorem call_round_order (envBase : Env) (request : Request) (mprt : Nat) :
    (failStreak (noCancel envBase) 0 (acceptedPeers (noCancel envBase) 0).length
          < (acceptedPeers (noCancel envBase) 0).length →
        (roundOf (noCancel envBase) request mprt).err = none
        ∧ (roundOf (noCancel envBase) request mprt).pfVar
            = some ⟨(acceptedPeers (noCancel envBase) 0).getD
                      (failStreak (noCancel envBase) 0
                        (acceptedPeers (noCancel envBase) 0).length) 0,
                    ((noCancel envBase).attempt
                      (failStreak (noCancel envBase) 0
                        (acceptedPeers (noCancel envBase) 0).length)).duration⟩
        ∧ (roundOf (noCancel envBase) request mprt).tried
            = (acceptedPeers (noCancel envBase) 0).take
                (failStreak (noCancel envBase) 0
                  (acceptedPeers (noCancel envBase) 0).length + 1))
    ∧ (failStreak (noCancel envBase) 0 (acceptedPeers (noCancel envBase) 0).length
          = (acceptedPeers (noCancel envBase) 0).length →
        (roundOf (noCancel envBase) request mprt).err = some .callFailedAllPeers
        ∧ (roundOf (noCancel envBase) request mprt).pfVar = none
        ∧ (roundOf (noCancel envBase) request mprt).tried
            = acceptedPeers (noCancel envBase) 0)
    ∧ (∀ pf : PeerFeedbackH,
        pf.recordSuccess = Ev.recordSuccess pf.peerID pf.latency
        ∧ pf.recordFailure = Ev.recordFailure pf.peerID pf.latency
        ∧ pf.recordBadPeer = Ev.recordBadPeer pf.peerID) := by
  have h := round_char (noCancel envBase) request mprt rfl
    ((noCancel envBase).bestPeers 0) 0 0
  refine ⟨?_, ?_, fun pf => ⟨rfl, rfl, rfl⟩⟩
  · intro hk
    obtain ⟨h1, h2, h3⟩ := h.2 hk
    exact ⟨h1, by simpa using h2, h3⟩
  · intro hk
    exact h.1 hk

/-- Claim C5: a per-peer attempt that completes with any failure other than the
pre-attempt cancellation check (stream open, write, read, decode, or remote
application error) records exactly one failure against that peer with the
elapsed latency of the attempt and returns no feedback handle; a successful
transport round-trip records nothing immediately and returns the deferred
feedback handle bound to that peer and latency; and the pre-attempt
cancellation return records nothing, returns no handle, and touches no
stream. -/
theorem call_failure_feedback (env : Env) (peer : PeerID) (request : Request)
    (mprt aIdx t : Nat) :
    ((clientCall env peer request mprt aIdx t).err = none →
        (clientCall env peer request mprt aIdx t).events = []
        ∧ (clientCall env peer request mprt aIdx t).pf
            = some ⟨peer, (env.attempt aIdx).duration⟩)
    ∧ (∀ e : CallError, e ≠ .cancelled →
        (clientCall env peer request mprt aIdx t).err = some e →
        (clientCall env peer request mprt aIdx t).events
          = [Ev.recordFailure peer (env.attempt aIdx).duration]
        ∧ (clientCall env peer request mprt aIdx t).pf = none)
    ∧ ((clientCall env peer request mprt aIdx t).err = some .cancelled →
        (clientCall env peer request mprt aIdx t).events = []
        ∧ (clientCall env peer request mprt aIdx t).pf = none
        ∧ (clientCall env peer request mprt aIdx t).trace = []) := by
  cases hd : env.isDone t with
  | true =>
      rw [clientCall_done env peer request mprt aIdx t hd]
      refine ⟨?_, ?_, ?_⟩
      · intro h; cases h
      · intro e hne he
        cases he
        exact absurd rfl hne
      · intro _; exact ⟨rfl, rfl, rfl⟩
  | false =>
      obtain ⟨hdur, hnext, hst, hiss, hok, herr⟩ :=
        clientCall_fields env peer request mprt aIdx t hd
      refine ⟨?_, ?_, ?_⟩
      · intro h
        obtain ⟨hpf, hev⟩ := hok h
        exact ⟨hev, hpf⟩
      · intro e hne he
        obtain ⟨hpf, hev⟩ := herr e he
        exact ⟨hev, hpf⟩
      · intro he
        rw [clientCall_err_eq env peer request mprt aIdx t hd] at he
        exact absurd he (sendErr_ne_cancelled env peer request mprt (env.attempt aIdx))

/-- Claim C7: when the raw response envelope carries an error descriptor, the
attempt surfaces the application error rebuilt from exactly that module, code
and message — an error distinct from every transport failure — and leaves the
response container unfilled; when the envelope carries an Ok payload, the
container receives exactly the codec decode of that payload and the attempt
succeeds precisely when that decode does; and any per-peer failure, the
application error included, yields no feedback handle and lets the round
proceed with the next candidate peer. -/
theorem attempt_app_error (env : Env) (peer : PeerID) (request : Request)
    (mprt d : Nat) (rsp : Response) :
    (∀ e : ErrorDesc, rsp.error = some e →
        (sendRequestAndDecodeResponse env peer request mprt ⟨d, .respond rsp⟩).err
            = some (.fromCode e.module e.code e.message)
        ∧ (sendRequestAndDecodeResponse env peer request mprt ⟨d, .respond rsp⟩).container
            = none
        ∧ CallError.isTransport (.fromCode e.module e.code e.message) = false)
    ∧ (rsp.error = none →
        (sendRequestAndDecodeResponse env peer request mprt ⟨d, .respond rsp⟩).container
          = env.decode rsp.ok
        ∧ ((sendRequestAndDecodeResponse env peer request mprt ⟨d, .respond rsp⟩).err
              = none
            ↔ (env.decode rsp.ok).isSome = true))
    ∧ (∀ (rest : List PeerID) (aIdx t : Nat) (e : CallError),
        env.accept peer = true →
        (clientCall env peer request mprt aIdx t).err = some e →
        (tryPeersAux env request mprt (peer :: rest) none aIdx t).tried
          = peer :: (tryPeersAux env request mprt rest none
              (clientCall env peer request mprt aIdx t).nextAttemptIdx
              (t + (clientCall env peer request mprt aIdx t).duration)).tried
        ∧ (clientCall env peer request mprt aIdx t).pf = none) := by
  refine ⟨?_, ?_, ?_⟩
  · intro e he
    refine ⟨?_, ?_, rfl⟩
    · simp [sendRequestAndDecodeResponse, he]
    · simp [sendRequestAndDecodeResponse, he]
  · intro he
    cases hdec : env.decode rsp.ok with
    | some v =>
        constructor
        · simp [sendRequestAndDecodeResponse, he, hdec]
        · simp [sendRequestAndDecodeResponse, he, hdec]
    | none =>
        constructor
        · simp [sendRequestAndDecodeResponse, he, hdec]
        · simp [sendRequestAndDecodeResponse, he, hdec]
  · intro rest aIdx t e ha he
    have hpf := clientCall_pf_none_of_err env peer request mprt aIdx t e he
    constructor
    · simp [tryPeersAux, ha, he, hpf]
    · exact hpf

/-- Claim C6 (counterexample): in a concrete successful attempt with the
caller-supplied response deadline of 7000 ms, no deadline whatsoever is set
before the stream open (the open is bounded only by the caller context), and
the write deadline that is set is the fixed constant `RequestWriteDeadline`
(5000 ms), not a value derived from the caller-provided timeout — refuting
the claim that each blocking point is bounded by an explicit deadline derived
from caller-provided timeouts. -/
theorem attempt_deadline_counterexample :
    openBoundedByDeadline
        (sendRequestAndDecodeResponse env2 1 ⟨"m", []⟩ 7000 okBehavior).trace = false
    ∧ StreamAction.setWriteDeadline (some RequestWriteDeadline)
        ∈ (sendRequestAndDecodeResponse env2 1 ⟨"m", []⟩ 7000 okBehavior).trace
    ∧ RequestWriteDeadline ≠ 7000
    ∧ StreamAction.setReadDeadline 7000
        ∈ (sendRequestAndDecodeResponse env2 1 ⟨"m", []⟩ 7000 okBehavior).trace := by
  decide

/-- Claim C8: the submission loop of `CallMulti` hands every pooled task a closure
over the single shared range variable `peer`; under the late-start schedule
(all queued tasks begin after the loop has finished) the two tasks submitted
for accepted peers 1 and 2 both target peer 2, instead of one task per
accepted peer. -/
theorem callMulti_captured_loop_variable :
    callMultiTargetsLateSchedule [1, 2] = [2, 2]
    ∧ callMultiTargetsLateSchedule [1, 2] ≠ [1, 2] := by decide

/-- Claim C9: with the pool resized to `maxParallelRequests = k` workers, every
state reachable from the fresh pool keeps at most k tasks in flight,
regardless of how many tasks are submitted; and `CallMulti` resizes its pool
exactly to its `maxParallelRequests` argument. -/
theorem callMulti_parallelism_bound (k : Nat) (s : WorkerPool)
    (h : Relation.ReflTransGen PoolStep (WorkerPool.init k) s) :
    s.inFlight ≤ k
    ∧ ∀ (env : Env) (method : String) (body : Bytes) (mprt : Nat),
        (CallMulti env method body mprt k).poolSize = k :=
  ⟨pool_inFlight_le k s h, fun _ _ _ _ => rfl⟩

/-- Witness for claim C9: the bound applied to a pool of two workers after
one submit and one start step. -/
theorem callMulti_parallelism_bound_witness :
    WorkerPool.inFlight ⟨[true, false], 0⟩ ≤ 2 :=
  (callMulti_parallelism_bound 2 ⟨[true, false], 0⟩
    (Relation.ReflTransGen.tail
      (Relation.ReflTransGen.single (PoolStep.submit ⟨[false, false], 0⟩))
      (PoolStep.start ⟨[false, false], 1⟩ 0 rfl (by decide)))).1

/-- Claim C10: `Call` returns a feedback handle exactly when it returns no error:
the returned handle is present precisely on the success path, and every
failing outcome — exhaustion or cancellation, in any round — returns no
handle. -/
theorem call_handle_iff_success (env : Env) (method : String) (body : Bytes)
    (mprt : Nat) (co : CallOptions) :
    ((Call env method body mprt co).err = none ↔
      (Call env method body mprt co).pf.isSome = true) :=
  Call_pf_iff env method body mprt co
